import Mathlib

/-!
Shallow embedding of the heterogeneous graph representation core of
NanoParticleTools, translated from
src/NanoParticleTools/machine_learning/models/hetero/intra_inter_model.py
(HeteroDCVRepresentationModule and HeteroDCVModel).

Tensors are modelled as functions out of Fin over exact rationals.  The
scalar primitives of the numeric backend that are not rational (pi, exp,
inverse square root) are carried as explicit fields of the configuration,
so every definition stays executable.  Stateful pieces (the running
statistics of the batch-normalization layers) are modelled by explicit
state passing.
-/

/-- Training or evaluation mode of a torch module. -/
inductive Mode where
  | train
  | eval
deriving DecidableEq

/-- Hyperparameters of HeteroDCVRepresentationModule.__init__ (source lines
18-47), with the default values of the source, together with the scalar
primitives of the numeric backend kept abstract over exact rationals. -/
structure Config where
  embed_dim : ℕ := 16
  n_message_passing : ℕ := 3
  nsigma : ℕ := 5
  use_volume_in_dopant_constraint : Bool := false
  normalize_interaction_by_volume : Bool := false
  use_inverse_concentration : Bool := false
  interaction_embedding : Bool := false
  conc_eps : ℚ := 1/100
  piVal : ℚ
  expF : ℚ → ℚ
  invSqrt : ℚ → ℚ

/-- Source line 46: n_conc = 2 if self.use_inverse_concentration else 1. -/
def Config.nConc (c : Config) : ℕ :=
  if c.use_inverse_concentration then 2 else 1

/-- Source line 47: interaction_dim = nsigma * 4 if use_inverse_concentration
else nsigma. -/
def Config.interaction_dim (c : Config) : ℕ :=
  if c.use_inverse_concentration then c.nsigma * 4 else c.nsigma

/-- Source lines 52-57: the dopant constraint FiLM layer takes 3 geometric
features when use_volume_in_dopant_constraint is set, else 2. -/
def Config.geomDim (c : Config) : ℕ :=
  if c.use_volume_in_dopant_constraint then 3 else 2

/-- The configuration obtained by keeping every keyword argument of
HeteroDCVRepresentationModule.__init__ at its default, supplying only the
backend scalar primitives. -/
def defaultConfig (piVal : ℚ) (expF invSqrt : ℚ → ℚ) : Config :=
  { piVal := piVal, expF := expF, invSqrt := invSqrt }

/-- A length-n vector of rationals. -/
abbrev Vec (n : ℕ) := Fin n → ℚ

/-- A torch.nn.Linear layer: an affine map given by a weight matrix and a
bias vector. -/
structure Lin (inD outD : ℕ) where
  weight : Fin outD → Fin inD → ℚ
  bias : Vec outD

/-- Application of a linear layer: W x + b. -/
def Lin.apply {inD outD : ℕ} (l : Lin inD outD) (x : Vec inD) : Vec outD :=
  fun r => l.bias r + ∑ c, l.weight r c * x c

/-- Modelled from the spec: the FiLM conditioning layer
(NanoParticleTools.machine_learning.modules.film.FiLMLayer, not under src/).
Per the spec, an internal MLP with configurable hidden widths maps the
context vector to 2D values split into a per-channel scale and shift; the
MLP is therefore kept abstract as a function from the context to the
(scale, shift) pair. -/
structure FiLMLayer (C E : ℕ) where
  mlp : Vec C → Vec E × Vec E

/-- Modelled from the spec: FiLM combination rule
embedding * (1 + scale) + shift. -/
def FiLMLayer.apply {C E : ℕ} (f : FiLMLayer C E) (emb : Vec E) (ctx : Vec C) : Vec E :=
  fun i => emb i * (1 + (f.mlp ctx).1 i) + (f.mlp ctx).2 i

/-- Modelled from the spec: the radial interaction integrator
(NanoParticleTools.machine_learning.modules.layer_interaction.InteractionBlock,
not under src/).  Given the inner and outer radii of the two participating
shells it produces nsigma integrated overlap values; it is a pure function
with no learned parameters, so it is kept abstract.  The sigma index is
taken as a natural number; only indices below nsigma are ever used. -/
structure InteractionBlock (nsigma : ℕ) where
  integrate : ℚ → ℚ → ℚ → ℚ → ℕ → ℚ

/-- Modelled from the spec: the readout MLP
(NanoParticleTools.machine_learning.modules.NonLinearMLP, not under src/).
Its constructor arguments in the source are (input size, output size,
hidden widths, dropout, activation); per the spec the hidden stack is a
configurable nonlinear MLP and the final layer is linear with no
activation, so the hidden stack is kept abstract and the final linear
layer explicit. -/
structure NonLinearMLP (inD outD : ℕ) where
  hiddenDim : ℕ
  hidden : Vec inD → Vec hiddenDim
  finalLin : Lin hiddenDim outD

/-- Application of the readout MLP: the abstract hidden stack followed by
the final linear layer (no activation after it). -/
def NonLinearMLP.apply {inD outD : ℕ} (m : NonLinearMLP inD outD) (x : Vec inD) : Vec outD :=
  m.finalLin.apply (m.hidden x)

/-- torch.nn.BatchNorm1d default momentum (0.1). -/
def bnMomentum : ℚ := 1/10

/-- torch.nn.BatchNorm1d default eps (1e-5). -/
def bnEps : ℚ := 1/100000

/-- Learned affine parameters of a torch.nn.BatchNorm1d layer. -/
structure BNParams (C : ℕ) where
  gamma : Vec C
  beta : Vec C

/-- Running statistics (mutable buffers) of a torch.nn.BatchNorm1d layer. -/
structure BNState (C : ℕ) where
  runningMean : Vec C
  runningVar : Vec C

/-- Per-channel mean over the batch dimension. -/
def bnBatchMean {n C : ℕ} (x : Fin n → Vec C) : Vec C :=
  fun c => (∑ i, x i c) / (n : ℚ)

/-- Per-channel biased variance over the batch dimension. -/
def bnBatchVar {n C : ℕ} (x : Fin n → Vec C) : Vec C :=
  fun c => (∑ i, (x i c - bnBatchMean x c) ^ 2) / (n : ℚ)

/-- torch.nn.BatchNorm1d forward: in training mode it normalizes by the
batch statistics and updates the running statistics (with the unbiased
variance); in evaluation mode it normalizes by the running statistics and
leaves them unchanged. -/
def bnForward (cfg : Config) {n C : ℕ} (p : BNParams C) (st : BNState C)
    (mode : Mode) (x : Fin n → Vec C) : (Fin n → Vec C) × BNState C :=
  match mode with
  | Mode.eval =>
    (fun i c => (x i c - st.runningMean c) * cfg.invSqrt (st.runningVar c + bnEps)
        * p.gamma c + p.beta c,
     st)
  | Mode.train =>
    (fun i c => (x i c - bnBatchMean x c) * cfg.invSqrt (bnBatchVar x c + bnEps)
        * p.gamma c + p.beta c,
     { runningMean := fun c =>
         (1 - bnMomentum) * st.runningMean c + bnMomentum * bnBatchMean x c,
       runningVar := fun c =>
         (1 - bnMomentum) * st.runningVar c
           + bnMomentum * ((∑ i, (x i c - bnBatchMean x c) ^ 2) / ((n : ℚ) - 1)) })

/-- LeakyReLU with the GATv2Conv default negative slope 0.2. -/
def leakyRelu (x : ℚ) : ℚ := if x < 0 then x / 5 else x

/-- SiLU activation x * sigmoid x = x / (1 + exp (-x)), with exp taken from
the configuration. -/
def silu (cfg : Config) (x : ℚ) : ℚ := x / (1 + cfg.expF (-x))

/-- SiLU applied componentwise. -/
def siluVec (cfg : Config) {E : ℕ} (v : Vec E) : Vec E :=
  fun c => silu cfg (v c)

/-- Learned parameters of one torch_geometric GATv2Conv as constructed in
the source (source lines 76-97: in and out channels both embed_dim, one
head, concat=False, add_self_loops=False, default bias). -/
structure GATParams (E : ℕ) where
  lin_l : Lin E E
  lin_r : Lin E E
  att : Vec E
  bias : Vec E

/-- GATv2 attention score of one directed edge e = (source, target):
sum over channels of att * LeakyReLU (lin_l x_src + lin_r x_dst). -/
def edgeScore {E nS nT : ℕ} (gp : GATParams E)
    (xs : Fin nS → Vec E) (xd : Fin nT → Vec E) (e : Fin nS × Fin nT) : ℚ :=
  ∑ c, gp.att c * leakyRelu (gp.lin_l.apply (xs e.1) c + gp.lin_r.apply (xd e.2) c)

/-- Unnormalized attention weight exp (score) of one edge. -/
def edgeExp (cfg : Config) {E nS nT : ℕ} (gp : GATParams E)
    (xs : Fin nS → Vec E) (xd : Fin nT → Vec E) (e : Fin nS × Fin nT) : ℚ :=
  cfg.expF (edgeScore gp xs xd e)

/-- Softmax denominator at a target node: sum of the unnormalized weights
of its incoming edges. -/
def attnDenom (cfg : Config) {E nS nT : ℕ} (gp : GATParams E)
    (xs : Fin nS → Vec E) (xd : Fin nT → Vec E)
    (edges : List (Fin nS × Fin nT)) (t : Fin nT) : ℚ :=
  (edges.map (fun e => if e.2 = t then edgeExp cfg gp xs xd e else 0)).sum

/-- GATv2Conv output at a target node: bias plus the attention-weighted sum
of the transformed features of its incoming source nodes (softmax over the
incoming edges of that node only; no self loops are added, matching
add_self_loops=False).  A node with no incoming edge receives exactly the
bias. -/
def gatv2 (cfg : Config) {E nS nT : ℕ} (gp : GATParams E)
    (xs : Fin nS → Vec E) (xd : Fin nT → Vec E)
    (edges : List (Fin nS × Fin nT)) (t : Fin nT) : Vec E :=
  fun c => gp.bias c +
    (edges.map (fun e =>
      if e.2 = t then edgeExp cfg gp xs xd e * gp.lin_l.apply (xs e.1) c else 0)).sum
      / attnDenom cfg gp xs xd edges t

/-- The four directed relation types of the heterogeneous graph (the keys
of edge_index_dict), each an explicit list of (source, target) index
pairs. -/
structure EdgeLists (nD nI nA : ℕ) where
  dopant_to_interaction : List (Fin nD × Fin nI)
  interaction_to_dopant : List (Fin nI × Fin nD)
  dopant_to_intraaction : List (Fin nD × Fin nA)
  intraaction_to_dopant : List (Fin nA × Fin nD)

/-- Node features of the three node types during message passing
(intermediate_x_dict in the source). -/
structure MPState (nD nI nA E : ℕ) where
  dopant : Fin nD → Vec E
  interaction : Fin nI → Vec E
  intraaction : Fin nA → Vec E

/-- The four GATv2 convolutions of one HeteroConv round (source lines
76-97), one per directed relation type. -/
structure RoundParams (E : ℕ) where
  d2i : GATParams E
  i2d : GATParams E
  d2a : GATParams E
  a2d : GATParams E

/-- Learned parameters of HeteroDCVRepresentationModule (source lines
49-100).  Both variants of the pair embedder are carried; the flag
interaction_embedding selects which one forward uses (source lines
60-65 and 152-157). -/
structure Params (cfg : Config) where
  dopant_embedder : Fin 3 → Vec cfg.embed_dim
  dopant_film_layer : FiLMLayer cfg.nConc cfg.embed_dim
  dopant_constraint_film_layer : FiLMLayer cfg.geomDim cfg.embed_dim
  dopant_norm : BNParams cfg.embed_dim
  interaction_embedder_table : Fin 9 → Vec cfg.embed_dim
  interaction_embedder_lin : Lin 2 cfg.embed_dim
  intraaction_embedder_table : Fin 9 → Vec cfg.embed_dim
  intraaction_embedder_lin : Lin 2 cfg.embed_dim
  integrated_interaction : InteractionBlock cfg.nsigma
  interaction_norm : BNParams cfg.interaction_dim
  intraaction_norm : BNParams cfg.interaction_dim
  interaction_film_layer : FiLMLayer cfg.interaction_dim cfg.embed_dim
  intraaction_film_layer : FiLMLayer cfg.interaction_dim cfg.embed_dim
  convs : Fin cfg.n_message_passing → RoundParams cfg.embed_dim

/-- Running statistics of the three batch-normalization layers of the
representation module. -/
structure BNStates (cfg : Config) where
  dopant_norm : BNState cfg.embed_dim
  interaction_norm : BNState cfg.interaction_dim
  intraaction_norm : BNState cfg.interaction_dim

/-- Full state of the representation module: learned parameters plus the
mutable running statistics. -/
structure ModuleState (cfg : Config) where
  params : Params cfg
  bn : BNStates cfg

/-- The tensor arguments of HeteroDCVRepresentationModule.forward (source
lines 102-115).  nD, nI, nA count dopant, interaction and intraaction
nodes; nC counts constraints (shells); nR counts raw radii entries.
constraint_radii_idx selects for each constraint its (inner, outer) radius
pair; batch_dict is the optional dictionary of per-node graph-membership
indices keyed by node-type name. -/
structure Inputs (nD nI nA nC nR : ℕ) where
  dopant_types : Fin nD → Fin 3
  dopant_concs : Fin nD → ℚ
  dopant_constraint_indices : Fin nD → Fin nC
  interaction_type_indices : Fin nI → Fin 2 → ℚ
  interaction_types : Fin nI → Fin 9
  interaction_dopant_indices : Fin nI → Fin nD × Fin nD
  intraaction_type_indices : Fin nA → Fin 2 → ℚ
  intraaction_types : Fin nA → Fin 9
  intraaction_dopant_indices : Fin nA → Fin nD × Fin nD
  edge_index_dict : EdgeLists nD nI nA
  radii : Fin nR → ℚ
  constraint_radii_idx : Fin nC → Fin nR × Fin nR
  batch_dict : Option (List (String × (Fin nD → ℕ)))

/-- Source line 117: _radii = radii[constraint_radii_idx], the (inner,
outer) radius pair of each constraint. -/
def shellRadii {nD nI nA nC nR : ℕ} (inp : Inputs nD nI nA nC nR) :
    Fin nC → ℚ × ℚ :=
  fun c => (inp.radii (inp.constraint_radii_idx c).1,
            inp.radii (inp.constraint_radii_idx c).2)

/-- Source lines 119-121: volume = 4/3 * pi * _radii ** 3, then
volume[:, 1] - volume[:, 0]. -/
def volume (cfg : Config) {nD nI nA nC nR : ℕ} (inp : Inputs nD nI nA nC nR) :
    Fin nC → ℚ :=
  fun c => 4/3 * cfg.piVal * (shellRadii inp c).2 ^ 3
         - 4/3 * cfg.piVal * (shellRadii inp c).1 ^ 3

/-- Source lines 127-130: the concentration context of a dopant node; the
concentration alone, or the (concentration, 1 / (concentration + eps))
pair when use_inverse_concentration is set. -/
def concCtx (cfg : Config) {nD nI nA nC nR : ℕ} (inp : Inputs nD nI nA nC nR) :
    Fin nD → Vec cfg.nConc :=
  fun d j =>
    if (j : ℕ) = 0 then inp.dopant_concs d
    else 1 / (inp.dopant_concs d + cfg.conc_eps)

/-- Source lines 134-140: the geometric context of a dopant node, the
(inner, outer) radii of its constraint, with the constraint volume
appended when use_volume_in_dopant_constraint is set. -/
def geomCtx (cfg : Config) {nD nI nA nC nR : ℕ} (inp : Inputs nD nI nA nC nR) :
    Fin nD → Vec cfg.geomDim :=
  fun d j =>
    if (j : ℕ) = 0 then (shellRadii inp (inp.dopant_constraint_indices d)).1
    else if (j : ℕ) = 1 then (shellRadii inp (inp.dopant_constraint_indices d)).2
    else volume cfg inp (inp.dopant_constraint_indices d)

/-- Source lines 123-142: embedding of the dopant type, FiLM conditioning
on the concentration, then FiLM conditioning on the constraint geometry,
before the batch normalization. -/
def dopantPreNorm (cfg : Config) (p : Params cfg) {nD nI nA nC nR : ℕ}
    (inp : Inputs nD nI nA nC nR) : Fin nD → Vec cfg.embed_dim :=
  fun d => p.dopant_constraint_film_layer.apply
    (p.dopant_film_layer.apply (p.dopant_embedder (inp.dopant_types d))
      (concCtx cfg inp d))
    (geomCtx cfg inp d)

/-- Source lines 123-145: the dopant branch up to and including
dopant_norm, returning the features and the updated running statistics. -/
def dopantBranch (cfg : Config) (p : Params cfg) (st : BNState cfg.embed_dim)
    (mode : Mode) {nD nI nA nC nR : ℕ} (inp : Inputs nD nI nA nC nR) :
    (Fin nD → Vec cfg.embed_dim) × BNState cfg.embed_dim :=
  bnForward cfg p.dopant_norm st mode (dopantPreNorm cfg p inp)

/-- Source lines 152-157 (and 205-211): embedding of a pair node, from the
9-entry table when interaction_embedding is set, else the Linear layer on
the two-component type index vector. -/
def pairEmbed (cfg : Config) (tbl : Fin 9 → Vec cfg.embed_dim)
    (lin : Lin 2 cfg.embed_dim) {n : ℕ}
    (types : Fin n → Fin 9) (typeIdx : Fin n → Fin 2 → ℚ) :
    Fin n → Vec cfg.embed_dim :=
  fun k => if cfg.interaction_embedding then tbl (types k)
           else lin.apply (typeIdx k)

/-- Source lines 159-163 (and 213-217): the integrated radial interaction
of a pair node, evaluated on the flattened (inner, outer) radius pairs of
the constraints of its two dopant nodes. -/
def pairIntegrated (cfg : Config) (p : Params cfg) {nD nI nA nC nR n : ℕ}
    (inp : Inputs nD nI nA nC nR) (dIdx : Fin n → Fin nD × Fin nD) :
    Fin n → ℕ → ℚ :=
  fun k =>
    let r0 := shellRadii inp (inp.dopant_constraint_indices (dIdx k).1)
    let r1 := shellRadii inp (inp.dopant_constraint_indices (dIdx k).2)
    p.integrated_interaction.integrate r0.1 r0.2 r1.1 r1.2

/-- Source lines 167-176 (and 221-230): the four cross products of
concentration and inverse concentration (1 / (c + eps)) of the two
participating dopants, in the stacking order of the source. -/
def concFactor (cfg : Config) (c0 c1 : ℚ) : ℕ → ℚ
  | 0 => c0 * c1
  | 1 => c0 * (1 / (c1 + cfg.conc_eps))
  | 2 => (1 / (c0 + cfg.conc_eps)) * c1
  | _ => (1 / (c0 + cfg.conc_eps)) * (1 / (c1 + cfg.conc_eps))

/-- Source lines 165-187 (and 219-241): the conditioning vector of one pair
node before normalization.  With use_inverse_concentration the [4, nsigma]
product of the four concentration cross factors with the integrated
interaction is flattened row-major to length 4 * nsigma; without it the
integrated interaction is scaled by the plain product of the two
concentrations. -/
def pairCondVecPre (cfg : Config) (c0 c1 : ℚ) (integ : ℕ → ℚ) :
    Vec cfg.interaction_dim :=
  fun j =>
    if cfg.use_inverse_concentration then
      concFactor cfg c0 c1 ((j : ℕ) / cfg.nsigma) * integ ((j : ℕ) % cfg.nsigma)
    else
      (c0 * c1) * integ (j : ℕ)

/-- Source lines 189-194 (and 243-248): optional normalization of the
conditioning vector by the product of the two constraint volumes. -/
def pairCondVec (cfg : Config) (c0 c1 v0 v1 : ℚ) (integ : ℕ → ℚ) :
    Vec cfg.interaction_dim :=
  fun j =>
    if cfg.normalize_interaction_by_volume
    then pairCondVecPre cfg c0 c1 integ j / (v0 * v1)
    else pairCondVecPre cfg c0 c1 integ j

/-- The conditioning vectors of all interaction nodes, before the batch
normalization (source lines 159-194). -/
def interCondVec (cfg : Config) (p : Params cfg) {nD nI nA nC nR : ℕ}
    (inp : Inputs nD nI nA nC nR) : Fin nI → Vec cfg.interaction_dim :=
  fun k => pairCondVec cfg
    (inp.dopant_concs (inp.interaction_dopant_indices k).1)
    (inp.dopant_concs (inp.interaction_dopant_indices k).2)
    (volume cfg inp (inp.dopant_constraint_indices (inp.interaction_dopant_indices k).1))
    (volume cfg inp (inp.dopant_constraint_indices (inp.interaction_dopant_indices k).2))
    (pairIntegrated cfg p inp inp.interaction_dopant_indices k)

/-- The conditioning vectors of all intraaction nodes, before the batch
normalization (source lines 213-248). -/
def intraCondVec (cfg : Config) (p : Params cfg) {nD nI nA nC nR : ℕ}
    (inp : Inputs nD nI nA nC nR) : Fin nA → Vec cfg.interaction_dim :=
  fun k => pairCondVec cfg
    (inp.dopant_concs (inp.intraaction_dopant_indices k).1)
    (inp.dopant_concs (inp.intraaction_dopant_indices k).2)
    (volume cfg inp (inp.dopant_constraint_indices (inp.intraaction_dopant_indices k).1))
    (volume cfg inp (inp.dopant_constraint_indices (inp.intraaction_dopant_indices k).2))
    (pairIntegrated cfg p inp inp.intraaction_dopant_indices k)

/-- Source lines 152-202: the interaction branch, yielding the
FiLM-conditioned interaction node features and the updated running
statistics of interaction_norm. -/
def interBranch (cfg : Config) (p : Params cfg) (st : BNState cfg.interaction_dim)
    (mode : Mode) {nD nI nA nC nR : ℕ} (inp : Inputs nD nI nA nC nR) :
    (Fin nI → Vec cfg.embed_dim) × BNState cfg.interaction_dim :=
  let bn := bnForward cfg p.interaction_norm st mode (interCondVec cfg p inp)
  (fun k => p.interaction_film_layer.apply
      (pairEmbed cfg p.interaction_embedder_table p.interaction_embedder_lin
        inp.interaction_types inp.interaction_type_indices k)
      (bn.1 k),
   bn.2)

/-- Source lines 204-256: the intraaction branch, same process as the
interaction branch with the intraaction layers and inputs. -/
def intraBranch (cfg : Config) (p : Params cfg) (st : BNState cfg.interaction_dim)
    (mode : Mode) {nD nI nA nC nR : ℕ} (inp : Inputs nD nI nA nC nR) :
    (Fin nA → Vec cfg.embed_dim) × BNState cfg.interaction_dim :=
  let bn := bnForward cfg p.intraaction_norm st mode (intraCondVec cfg p inp)
  (fun k => p.intraaction_film_layer.apply
      (pairEmbed cfg p.intraaction_embedder_table p.intraaction_embedder_lin
        inp.intraaction_types inp.intraaction_type_indices k)
      (bn.1 k),
   bn.2)

/-- One HeteroConv round followed by SiLU (source lines 259-264): each of
the four relations applies its own GATv2 convolution, contributions landing
on a node type are summed (dopant receives from interaction and
intraaction), and SiLU is applied to every node type. -/
def mpRound (cfg : Config) {nD nI nA : ℕ} (rp : RoundParams cfg.embed_dim)
    (ed : EdgeLists nD nI nA) (st : MPState nD nI nA cfg.embed_dim) :
    MPState nD nI nA cfg.embed_dim :=
  { dopant := fun d => siluVec cfg (fun c =>
      gatv2 cfg rp.i2d st.interaction st.dopant ed.interaction_to_dopant d c +
      gatv2 cfg rp.a2d st.intraaction st.dopant ed.intraaction_to_dopant d c),
    interaction := fun k => siluVec cfg
      (gatv2 cfg rp.d2i st.dopant st.interaction ed.dopant_to_interaction k),
    intraaction := fun k => siluVec cfg
      (gatv2 cfg rp.d2a st.dopant st.intraaction ed.dopant_to_intraaction k) }

/-- Source lines 259-264: the message passing stack applies the
n_message_passing rounds in order. -/
def mpAll (cfg : Config) (p : Params cfg) {nD nI nA : ℕ}
    (ed : EdgeLists nD nI nA) (init : MPState nD nI nA cfg.embed_dim) :
    MPState nD nI nA cfg.embed_dim :=
  (List.finRange cfg.n_message_passing).foldl
    (fun st r => mpRound cfg (p.convs r) ed st) init

/-- Number of output rows of the scatter sum aggregation: max index + 1 on
a nonempty input, 0 on an empty one. -/
def nGraphs {nD : ℕ} (b : Fin nD → ℕ) : ℕ :=
  if nD = 0 then 0 else (Finset.univ.sup b) + 1

/-- torch_geometric SumAggregation with an index vector: row g is the sum
of the feature rows whose index is g. -/
def sumAggr {nD E : ℕ} (x : Fin nD → Vec E) (b : Fin nD → ℕ) : List (Vec E) :=
  (List.range (nGraphs b)).map
    (fun g c => ∑ i ∈ Finset.univ.filter (fun i => b i = g), x i c)

/-- Source line 265: the condition batch_dict and then dopant in
batch_dict, returning the dopant batch index vector when it holds. -/
def dopantBatchLookup {nD : ℕ}
    (bd : Option (List (String × (Fin nD → ℕ)))) : Option (Fin nD → ℕ) :=
  match bd with
  | none => none
  | some l => (l.find? (fun kv => kv.1 == "dopant")).map Prod.snd

/-- Source lines 265-269: aggregation of the dopant features, grouped by
the dopant batch index when present, else over all rows as one set (the
backend then uses the all-zero index vector). -/
def aggregate {nD E : ℕ} (x : Fin nD → Vec E)
    (bd : Option (List (String × (Fin nD → ℕ)))) : List (Vec E) :=
  match dopantBatchLookup bd with
  | some b => sumAggr x b
  | none => sumAggr x (fun _ => 0)

/-- The node features entering message passing (intermediate_x_dict after
source lines 148-256). -/
def initialMPState (cfg : Config) (s : ModuleState cfg) (mode : Mode)
    {nD nI nA nC nR : ℕ} (inp : Inputs nD nI nA nC nR) :
    MPState nD nI nA cfg.embed_dim :=
  { dopant := (dopantBranch cfg s.params s.bn.dopant_norm mode inp).1,
    interaction := (interBranch cfg s.params s.bn.interaction_norm mode inp).1,
    intraaction := (intraBranch cfg s.params s.bn.intraaction_norm mode inp).1 }

/-- The dopant features after the full message passing stack. -/
def finalDopant (cfg : Config) (s : ModuleState cfg) (mode : Mode)
    {nD nI nA nC nR : ℕ} (inp : Inputs nD nI nA nC nR) :
    Fin nD → Vec cfg.embed_dim :=
  (mpAll cfg s.params inp.edge_index_dict (initialMPState cfg s mode inp)).dopant

/-- HeteroDCVRepresentationModule.forward (source lines 102-271) as a state
transformer: the aggregated output together with the updated module state
(parameters unchanged, batch-norm running statistics threaded). -/
def reprForwardS (cfg : Config) (s : ModuleState cfg) (mode : Mode)
    {nD nI nA nC nR : ℕ} (inp : Inputs nD nI nA nC nR) :
    List (Vec cfg.embed_dim) × ModuleState cfg :=
  (aggregate (finalDopant cfg s mode inp) inp.batch_dict,
   { params := s.params,
     bn := { dopant_norm := (dopantBranch cfg s.params s.bn.dopant_norm mode inp).2,
             interaction_norm := (interBranch cfg s.params s.bn.interaction_norm mode inp).2,
             intraaction_norm := (intraBranch cfg s.params s.bn.intraaction_norm mode inp).2 } })

/-- The value returned by HeteroDCVRepresentationModule.forward. -/
def reprForward (cfg : Config) (s : ModuleState cfg) (mode : Mode)
    {nD nI nA nC nR : ℕ} (inp : Inputs nD nI nA nC nR) :
    List (Vec cfg.embed_dim) :=
  (reprForwardS cfg s mode inp).1

/-- Source line 298: the readout is constructed as
NonLinearMLP(embed_dim, 1, readout_layers, 0.25, nn.SiLU); its output
dimension is the literal 1. -/
def heteroReadoutOutDim : ℕ := 1

/-- Modelled from the spec: the configured length of the output spectrum
vector (e.g. 400 bins), the output size the readout is specified to
produce (SpectrumModelBase and the label pipeline are not under src/). -/
def spectrumLength : ℕ := 400

/-- HeteroDCVModel: the representation module state plus the readout MLP,
whose output dimension is the one fixed at construction (source line
298). -/
structure HeteroDCVModelParams (cfg : Config) where
  representation_module : ModuleState cfg
  readout : NonLinearMLP cfg.embed_dim heteroReadoutOutDim

/-- HeteroDCVModel.forward (source lines 300-321): the readout applied to
every row of the pooled representation. -/
def modelForward (cfg : Config) (m : HeteroDCVModelParams cfg) (mode : Mode)
    {nD nI nA nC nR : ℕ} (inp : Inputs nD nI nA nC nR) :
    List (Vec heteroReadoutOutDim) :=
  (reprForward cfg m.representation_module mode inp).map m.readout.apply

/-- HeteroDCVModel.get_representation (source lines 340-342) as a state
transformer: the pooled representation together with the model after the
call. -/
def get_representation (cfg : Config) (m : HeteroDCVModelParams cfg)
    (mode : Mode) {nD nI nA nC nR : ℕ} (inp : Inputs nD nI nA nC nR) :
    List (Vec cfg.embed_dim) × HeteroDCVModelParams cfg :=
  ((reprForwardS cfg m.representation_module mode inp).1,
   { m with representation_module := (reprForwardS cfg m.representation_module mode inp).2 })

/-- Relabeling of the interaction endpoints of the two interaction-incident
edge lists along a permutation of the interaction nodes. -/
def permEdges {nD nI nA : ℕ} (σ : Equiv.Perm (Fin nI))
    (ed : EdgeLists nD nI nA) : EdgeLists nD nI nA :=
  { ed with
    dopant_to_interaction := ed.dopant_to_interaction.map (fun e => (e.1, σ.symm e.2)),
    interaction_to_dopant := ed.interaction_to_dopant.map (fun e => (σ.symm e.1, e.2)) }

/-- Reordering of the interaction-node list along a permutation, applied
consistently to interaction_type_indices, interaction_types,
interaction_dopant_indices and the interaction-incident edge lists: node k
of the reordered input is node (σ k) of the original. -/
def permuteInteractions {nD nI nA nC nR : ℕ} (σ : Equiv.Perm (Fin nI))
    (inp : Inputs nD nI nA nC nR) : Inputs nD nI nA nC nR :=
  { inp with
    interaction_type_indices := fun k => inp.interaction_type_indices (σ k),
    interaction_types := fun k => inp.interaction_types (σ k),
    interaction_dopant_indices := fun k => inp.interaction_dopant_indices (σ k),
    edge_index_dict := permEdges σ inp.edge_index_dict }

/-- Permutation of the interaction features of a message passing state. -/
def permMPState {nD nI nA E : ℕ} (σ : Equiv.Perm (Fin nI))
    (st : MPState nD nI nA E) : MPState nD nI nA E :=
  { st with interaction := fun k => st.interaction (σ k) }

/-- A small concrete configuration used for concrete evaluations. -/
def cfgW : Config :=
  { embed_dim := 1, n_message_passing := 1, nsigma := 1,
    piVal := 3, expF := fun _ => 1, invSqrt := fun _ => 1 }

/-- The small configuration with use_inverse_concentration set. -/
def cfgWinv : Config := { cfgW with use_inverse_concentration := true }

/-- A linear layer with all weights zero. -/
def zeroLin (inD outD : ℕ) : Lin inD outD :=
  { weight := fun _ _ => 0, bias := fun _ => 0 }

/-- A FiLM layer whose MLP returns zero scale and shift. -/
def zeroFiLM (C E : ℕ) : FiLMLayer C E :=
  { mlp := fun _ => (fun _ => 0, fun _ => 0) }

/-- GATv2 parameters with all weights zero. -/
def zeroGAT (E : ℕ) : GATParams E :=
  { lin_l := zeroLin E E, lin_r := zeroLin E E,
    att := fun _ => 0, bias := fun _ => 0 }

/-- GATv2 parameters with zero weights and bias one. -/
def oneBiasGAT (E : ℕ) : GATParams E :=
  { zeroGAT E with bias := fun _ => 1 }

/-- A round of four all-zero convolutions. -/
def zeroRound (E : ℕ) : RoundParams E :=
  { d2i := zeroGAT E, i2d := zeroGAT E, d2a := zeroGAT E, a2d := zeroGAT E }

/-- Representation module parameters with every learned weight zero. -/
def trivialParams (cfg : Config) : Params cfg :=
  { dopant_embedder := fun _ _ => 0,
    dopant_film_layer := zeroFiLM _ _,
    dopant_constraint_film_layer := zeroFiLM _ _,
    dopant_norm := { gamma := fun _ => 1, beta := fun _ => 0 },
    interaction_embedder_table := fun _ _ => 0,
    interaction_embedder_lin := zeroLin _ _,
    intraaction_embedder_table := fun _ _ => 0,
    intraaction_embedder_lin := zeroLin _ _,
    integrated_interaction := { integrate := fun _ _ _ _ _ => 0 },
    interaction_norm := { gamma := fun _ => 1, beta := fun _ => 0 },
    intraaction_norm := { gamma := fun _ => 1, beta := fun _ => 0 },
    interaction_film_layer := zeroFiLM _ _,
    intraaction_film_layer := zeroFiLM _ _,
    convs := fun _ => zeroRound _ }

/-- Batch-norm running statistics initialized to mean zero, variance one. -/
def trivialBN (C : ℕ) : BNState C :=
  { runningMean := fun _ => 0, runningVar := fun _ => 1 }

/-- A full module state with zero weights and fresh running statistics. -/
def trivialState (cfg : Config) : ModuleState cfg :=
  { params := trivialParams cfg,
    bn := { dopant_norm := trivialBN _,
            interaction_norm := trivialBN _,
            intraaction_norm := trivialBN _ } }

/-- The dopant batch index vector of the concrete batched input. -/
def bW : Fin 1 → ℕ := fun _ => 0

/-- A concrete one-dopant input with a dopant batch index present. -/
def inpW : Inputs 1 1 1 1 2 :=
  { dopant_types := fun _ => 0,
    dopant_concs := fun _ => 1/2,
    dopant_constraint_indices := fun _ => 0,
    interaction_type_indices := fun _ _ => 0,
    interaction_types := fun _ => 0,
    interaction_dopant_indices := fun _ => (0, 0),
    intraaction_type_indices := fun _ _ => 0,
    intraaction_types := fun _ => 0,
    intraaction_dopant_indices := fun _ => (0, 0),
    edge_index_dict := { dopant_to_interaction := [(0, 0)],
                         interaction_to_dopant := [(0, 0)],
                         dopant_to_intraaction := [(0, 0)],
                         intraaction_to_dopant := [(0, 0)] },
    radii := fun i => if (i : ℕ) = 0 then 0 else 10,
    constraint_radii_idx := fun _ => (0, 1),
    batch_dict := some [("dopant", bW)] }

/-- The concrete one-dopant input with batch_dict absent. -/
def inpN : Inputs 1 1 1 1 2 := { inpW with batch_dict := none }

/-- The degenerate empty input: no nodes, no constraints, no radii, no
batch dictionary. -/
def inpE : Inputs 0 0 0 0 0 :=
  { dopant_types := Fin.elim0,
    dopant_concs := Fin.elim0,
    dopant_constraint_indices := Fin.elim0,
    interaction_type_indices := Fin.elim0,
    interaction_types := Fin.elim0,
    interaction_dopant_indices := Fin.elim0,
    intraaction_type_indices := Fin.elim0,
    intraaction_types := Fin.elim0,
    intraaction_dopant_indices := Fin.elim0,
    edge_index_dict := { dopant_to_interaction := [],
                         interaction_to_dopant := [],
                         dopant_to_intraaction := [],
                         intraaction_to_dopant := [] },
    radii := Fin.elim0,
    constraint_radii_idx := Fin.elim0,
    batch_dict := none }

/-- Concrete dopant-side features for the empty-relation evaluation. -/
def xdW : Fin 1 → Vec 1 := fun _ _ => 0

/-- In evaluation mode the forward pass leaves the module state unchanged:
every batch normalization returns its running statistics untouched. -/
theorem reprForwardS_eval_state (cfg : Config) (s : ModuleState cfg)
    {nD nI nA nC nR : ℕ} (inp : Inputs nD nI nA nC nR) :
    (reprForwardS cfg s Mode.eval inp).2 = s :=
  rfl

/-- C1: HeteroDCVModel.forward is the readout MLP applied row-wise to the
pooled representation, the readout ends in a linear layer with no
activation, and the output dimension fixed at construction (source line
298) is the literal 1, which is not the configured spectrum length of 400
bins. -/
theorem c1_readout_output_dimension :
    (∀ (cfg : Config) (m : HeteroDCVModelParams cfg) (mode : Mode)
       (nD nI nA nC nR : ℕ) (inp : Inputs nD nI nA nC nR),
       modelForward cfg m mode inp
         = (reprForward cfg m.representation_module mode inp).map m.readout.apply) ∧
    (∀ (cfg : Config) (m : HeteroDCVModelParams cfg) (x : Vec cfg.embed_dim),
       m.readout.apply x = m.readout.finalLin.apply (m.readout.hidden x)) ∧
    heteroReadoutOutDim = 1 ∧ spectrumLength = 400 ∧
    heteroReadoutOutDim ≠ spectrumLength :=
  ⟨fun _ _ _ _ _ _ _ _ _ => rfl, fun _ _ _ => rfl, rfl, rfl, by decide⟩

/-- C4: the message passing stack folds exactly n_message_passing rounds;
in each round every one of the four directed relations applies its own
GATv2 convolution on exactly its own edge list, the two contributions
landing on the dopant type are summed, and SiLU is applied to every node
type; the output is the aggregation of the dopant features alone, so the
final interaction and intraaction features are discarded. -/
theorem c4_message_passing_stack :
    (∀ (cfg : Config) (p : Params cfg) (nD nI nA : ℕ)
       (ed : EdgeLists nD nI nA) (init : MPState nD nI nA cfg.embed_dim),
       mpAll cfg p ed init
         = (List.finRange cfg.n_message_passing).foldl
             (fun st r => mpRound cfg (p.convs r) ed st) init) ∧
    (∀ cfg : Config,
       (List.finRange cfg.n_message_passing).length = cfg.n_message_passing) ∧
    (∀ (cfg : Config) (rp : RoundParams cfg.embed_dim) (nD nI nA : ℕ)
       (ed : EdgeLists nD nI nA) (st : MPState nD nI nA cfg.embed_dim),
       (mpRound cfg rp ed st).dopant
         = (fun d => siluVec cfg (fun c =>
             gatv2 cfg rp.i2d st.interaction st.dopant ed.interaction_to_dopant d c +
             gatv2 cfg rp.a2d st.intraaction st.dopant ed.intraaction_to_dopant d c)) ∧
       (mpRound cfg rp ed st).interaction
         = (fun k => siluVec cfg
             (gatv2 cfg rp.d2i st.dopant st.interaction ed.dopant_to_interaction k)) ∧
       (mpRound cfg rp ed st).intraaction
         = (fun k => siluVec cfg
             (gatv2 cfg rp.d2a st.dopant st.intraaction ed.dopant_to_intraaction k))) ∧
    (∀ (cfg : Config) (s : ModuleState cfg) (mode : Mode) (nD nI nA nC nR : ℕ)
       (inp : Inputs nD nI nA nC nR),
       reprForward cfg s mode inp
         = aggregate ((mpAll cfg s.params inp.edge_index_dict
             (initialMPState cfg s mode inp)).dopant) inp.batch_dict) :=
  ⟨fun _ _ _ _ _ _ _ => rfl,
   fun _ => List.length_finRange _,
   fun _ _ _ _ _ _ _ => ⟨rfl, rfl, rfl⟩,
   fun _ _ _ _ _ _ _ _ _ => rfl⟩

/-- C5: the volume of every constraint is the spherical-shell volume
4/3 * pi * (outer cubed minus inner cubed) of the radii pair selected by
constraint_radii_idx, and when the first shell has inner radius 0 its
volume is the full sphere volume of its outer radius. -/
theorem c5_shell_volume :
    ∀ (cfg : Config) (nD nI nA nC nR : ℕ) (inp : Inputs nD nI nA nC nR),
      (∀ c : Fin nC,
        volume cfg inp c = 4/3 * cfg.piVal *
          ((inp.radii (inp.constraint_radii_idx c).2) ^ 3
            - (inp.radii (inp.constraint_radii_idx c).1) ^ 3)) ∧
      (∀ h0 : 0 < nC,
        inp.radii (inp.constraint_radii_idx ⟨0, h0⟩).1 = 0 →
        volume cfg inp ⟨0, h0⟩
          = 4/3 * cfg.piVal * (inp.radii (inp.constraint_radii_idx ⟨0, h0⟩).2) ^ 3) := by
  intro cfg nD nI nA nC nR inp
  constructor
  · intro c
    unfold volume shellRadii
    ring
  · intro h0 hr
    unfold volume shellRadii
    rw [hr]
    ring

/-- Witness for C5 at a concrete two-radii input whose first shell has
inner radius 0. -/
theorem c5_shell_volume_witness :
    volume cfgW inpW ⟨0, by decide⟩
      = 4/3 * cfgW.piVal * (inpW.radii (inpW.constraint_radii_idx ⟨0, by decide⟩).2) ^ 3 :=
  (c5_shell_volume cfgW 1 1 1 1 2 inpW).2 (by decide) (by decide)

/-- C8: on a frozen evaluation-mode model, get_representation leaves the
model unchanged, and a second call on the resulting model returns the same
output as the first. -/
theorem c8_get_representation_idempotent :
    ∀ (cfg : Config) (m : HeteroDCVModelParams cfg) (nD nI nA nC nR : ℕ)
      (inp : Inputs nD nI nA nC nR),
      (get_representation cfg m Mode.eval inp).2 = m ∧
      (get_representation cfg (get_representation cfg m Mode.eval inp).2 Mode.eval inp).1
        = (get_representation cfg m Mode.eval inp).1 := by
  intro cfg m nD nI nA nC nR inp
  have h2 : (get_representation cfg m Mode.eval inp).2 = m := by
    show ({ m with representation_module :=
      (reprForwardS cfg m.representation_module Mode.eval inp).2 } : HeteroDCVModelParams cfg) = m
    rw [reprForwardS_eval_state]
  exact ⟨h2, by rw [h2]⟩

/-- C9: a forward pass never changes the learned parameters; in evaluation
mode the whole module state (including the running statistics) is returned
unchanged, and in training mode exactly the three batch-normalization
running statistics are replaced by their batch-norm updates. -/
theorem c9_forward_effects :
    ∀ (cfg : Config) (s : ModuleState cfg) (mode : Mode) (nD nI nA nC nR : ℕ)
      (inp : Inputs nD nI nA nC nR),
      ((reprForwardS cfg s mode inp).2.params = s.params) ∧
      ((reprForwardS cfg s Mode.eval inp).2 = s) ∧
      ((reprForwardS cfg s Mode.train inp).2.bn.dopant_norm
         = (bnForward cfg s.params.dopant_norm s.bn.dopant_norm Mode.train
             (dopantPreNorm cfg s.params inp)).2) ∧
      ((reprForwardS cfg s Mode.train inp).2.bn.interaction_norm
         = (bnForward cfg s.params.interaction_norm s.bn.interaction_norm Mode.train
             (interCondVec cfg s.params inp)).2) ∧
      ((reprForwardS cfg s Mode.train inp).2.bn.intraaction_norm
         = (bnForward cfg s.params.intraaction_norm s.bn.intraaction_norm Mode.train
             (intraCondVec cfg s.params inp)).2) :=
  fun cfg s mode nD nI nA nC nR inp =>
    ⟨rfl, reprForwardS_eval_state cfg s inp, rfl, rfl, rfl⟩

/-- C3: the default conc_eps is 0.01; the inverse concentration is
1 / (c + eps); with use_inverse_concentration the conditioning vector has
length 4 * nsigma and is the row-major flattening of the four
concentration cross products times the integrated interaction, without it
it has length nsigma and is the plain product of the two concentrations
times the integrated interaction; and both the interaction and the
intraaction FiLM layers are fed the batch-normalized conditioning vector
of that length. -/
theorem c3_inverse_concentration_conditioning :
    (∀ (p : ℚ) (e s : ℚ → ℚ), (defaultConfig p e s).conc_eps = 1/100) ∧
    (∀ (cfg : Config) (c0 c1 : ℚ),
       concFactor cfg c0 c1 0 = c0 * c1 ∧
       concFactor cfg c0 c1 1 = c0 * (1 / (c1 + cfg.conc_eps)) ∧
       concFactor cfg c0 c1 2 = (1 / (c0 + cfg.conc_eps)) * c1 ∧
       concFactor cfg c0 c1 3 = (1 / (c0 + cfg.conc_eps)) * (1 / (c1 + cfg.conc_eps))) ∧
    (∀ cfg : Config, cfg.use_inverse_concentration = true →
       cfg.interaction_dim = 4 * cfg.nsigma ∧
       ∀ (c0 c1 : ℚ) (integ : ℕ → ℚ) (j : Fin cfg.interaction_dim),
         pairCondVecPre cfg c0 c1 integ j
           = concFactor cfg c0 c1 ((j : ℕ) / cfg.nsigma) * integ ((j : ℕ) % cfg.nsigma)) ∧
    (∀ cfg : Config, cfg.use_inverse_concentration = false →
       cfg.interaction_dim = cfg.nsigma ∧
       ∀ (c0 c1 : ℚ) (integ : ℕ → ℚ) (j : Fin cfg.interaction_dim),
         pairCondVecPre cfg c0 c1 integ j = (c0 * c1) * integ (j : ℕ)) ∧
    (∀ (cfg : Config) (p : Params cfg) (st : BNState cfg.interaction_dim) (mode : Mode)
       (nD nI nA nC nR : ℕ) (inp : Inputs nD nI nA nC nR),
       (interBranch cfg p st mode inp).1
         = fun k => p.interaction_film_layer.apply
             (pairEmbed cfg p.interaction_embedder_table p.interaction_embedder_lin
               inp.interaction_types inp.interaction_type_indices k)
             ((bnForward cfg p.interaction_norm st mode (interCondVec cfg p inp)).1 k)) ∧
    (∀ (cfg : Config) (p : Params cfg) (st : BNState cfg.interaction_dim) (mode : Mode)
       (nD nI nA nC nR : ℕ) (inp : Inputs nD nI nA nC nR),
       (intraBranch cfg p st mode inp).1
         = fun k => p.intraaction_film_layer.apply
             (pairEmbed cfg p.intraaction_embedder_table p.intraaction_embedder_lin
               inp.intraaction_types inp.intraaction_type_indices k)
             ((bnForward cfg p.intraaction_norm st mode (intraCondVec cfg p inp)).1 k)) := by
  refine ⟨fun _ _ _ => rfl,
          fun _ _ _ => ⟨rfl, rfl, rfl, rfl⟩, ?_, ?_,
          fun _ _ _ _ _ _ _ _ _ _ => rfl,
          fun _ _ _ _ _ _ _ _ _ _ => rfl⟩
  · intro cfg h
    constructor
    · unfold Config.interaction_dim
      rw [h]
      simp [Nat.mul_comm]
    · intro c0 c1 integ j
      unfold pairCondVecPre
      rw [h]
      simp
  · intro cfg h
    constructor
    · unfold Config.interaction_dim
      rw [h]
      simp
    · intro c0 c1 integ j
      unfold pairCondVecPre
      rw [h]
      simp

/-- Witness for C3 at concrete configurations with the inverse flag set and
unset. -/
theorem c3_inverse_concentration_witness :
    (cfgWinv.interaction_dim = 4 * cfgWinv.nsigma ∧
     pairCondVecPre cfgWinv (1/2) (1/4) (fun _ => 2) ⟨1, by decide⟩
       = concFactor cfgWinv (1/2) (1/4) 1 * 2) ∧
    (cfgW.interaction_dim = cfgW.nsigma ∧
     pairCondVecPre cfgW (1/2) (1/4) (fun _ => 2) ⟨0, by decide⟩ = (1/2 * (1/4)) * 2) := by
  refine ⟨⟨(c3_inverse_concentration_conditioning.2.2.1 cfgWinv rfl).1, ?_⟩,
          ⟨(c3_inverse_concentration_conditioning.2.2.2.1 cfgW rfl).1, ?_⟩⟩
  · have h := (c3_inverse_concentration_conditioning.2.2.1 cfgWinv rfl).2
      (1/2) (1/4) (fun _ => 2) ⟨1, by decide⟩
    simpa [cfgWinv, cfgW] using h
  · have h := (c3_inverse_concentration_conditioning.2.2.2.1 cfgW rfl).2
      (1/2) (1/4) (fun _ => 2) ⟨0, by decide⟩
    simpa [cfgW] using h

/-- C6: when the dopant batch index is present, the output is one row per
graph, row g being the sum of the final dopant features of exactly the
dopant nodes whose batch index is g. -/
theorem c6_sum_pooling_by_batch :
    ∀ (cfg : Config) (s : ModuleState cfg) (mode : Mode) (nD nI nA nC nR : ℕ)
      (inp : Inputs nD nI nA nC nR) (b : Fin nD → ℕ),
      dopantBatchLookup inp.batch_dict = some b →
      reprForward cfg s mode inp
        = (List.range (nGraphs b)).map
            (fun g c => ∑ i ∈ Finset.univ.filter (fun i => b i = g),
              finalDopant cfg s mode inp i c) := by
  intro cfg s mode nD nI nA nC nR inp b h
  unfold reprForward reprForwardS aggregate
  rw [h]
  rfl

/-- Witness for C6 at a concrete batched input whose batch dictionary
holds a dopant entry. -/
theorem c6_sum_pooling_witness :
    reprForward cfgW (trivialState cfgW) Mode.eval inpW
      = (List.range (nGraphs bW)).map
          (fun g c => ∑ i ∈ Finset.univ.filter (fun i => bW i = g),
            finalDopant cfgW (trivialState cfgW) Mode.eval inpW i c) :=
  c6_sum_pooling_by_batch cfgW (trivialState cfgW) Mode.eval 1 1 1 1 2 inpW bW rfl

/-- C10 (amended): when batch_dict is None, empty, or lacks a dopant
entry, the aggregation uses the all-zero index vector; with at least one
dopant node this yields exactly one row, the sum of all final dopant
features; with zero dopant nodes the output is empty. -/
theorem c10_single_graph_pooling :
    ∀ (cfg : Config) (s : ModuleState cfg) (mode : Mode) (nD nI nA nC nR : ℕ)
      (inp : Inputs nD nI nA nC nR),
      dopantBatchLookup inp.batch_dict = none →
      (reprForward cfg s mode inp
         = sumAggr (finalDopant cfg s mode inp) (fun _ => 0)) ∧
      (0 < nD →
        reprForward cfg s mode inp
          = [fun c => ∑ i, finalDopant cfg s mode inp i c]) := by
  intro cfg s mode nD nI nA nC nR inp h
  have h1 : reprForward cfg s mode inp
      = sumAggr (finalDopant cfg s mode inp) (fun _ => 0) := by
    unfold reprForward reprForwardS aggregate
    rw [h]
  refine ⟨h1, fun hd => ?_⟩
  rw [h1]
  unfold sumAggr nGraphs
  rw [if_neg (Nat.pos_iff_ne_zero.mp hd)]
  haveI : Nonempty (Fin nD) := ⟨⟨0, hd⟩⟩
  rw [Finset.sup_const Finset.univ_nonempty 0]
  rw [show List.range (0 + 1) = [0] from rfl]
  simp

/-- Witness for the amended C10 at a concrete one-dopant input with
batch_dict absent. -/
theorem c10_single_graph_pooling_witness :
    reprForward cfgW (trivialState cfgW) Mode.eval inpN
      = [fun c => ∑ i, finalDopant cfgW (trivialState cfgW) Mode.eval inpN i c] :=
  (c10_single_graph_pooling cfgW (trivialState cfgW) Mode.eval 1 1 1 1 2 inpN rfl).2
    (by decide)

/-- C10 (counterexample to the claim as stated): on the degenerate input
with zero dopant nodes and no batch dictionary, forward returns an empty
list, not exactly one aggregated vector. -/
theorem c10_zero_dopant_counterexample :
    (reprForward cfgW (trivialState cfgW) Mode.eval inpE).length = 0 ∧ (0 : ℕ) ≠ 1 :=
  ⟨rfl, by decide⟩

/-- A list of pairs whose first component lives in Fin 0 is empty. -/
theorem emptySourceList {nD : ℕ} (l : List (Fin 0 × Fin nD)) : l = [] := by
  cases l with
  | nil => rfl
  | cons a _ => exact a.1.elim0

/-- A list of pairs whose second component lives in Fin 0 is empty. -/
theorem emptyTargetList {nD : ℕ} (l : List (Fin nD × Fin 0)) : l = [] := by
  cases l with
  | nil => rfl
  | cons a _ => exact a.2.elim0

/-- A GATv2 convolution over an empty edge list outputs exactly its bias
at every target node. -/
theorem gatv2_nil (cfg : Config) {E nS nT : ℕ} (gp : GATParams E)
    (xs : Fin nS → Vec E) (xd : Fin nT → Vec E) (t : Fin nT) :
    gatv2 cfg gp xs xd ([] : List (Fin nS × Fin nT)) t = fun c => gp.bias c := by
  funext c
  unfold gatv2 attnDenom
  simp

/-- C2 (amended): with zero interaction (resp. intraaction) nodes the
branch yields the empty feature family, its relation edge lists are
necessarily empty, every message passing round is total and the
contribution of the empty relation to each dopant node is exactly the
constant bias of its convolution (zero when that bias is zero), and the
forward output is still the aggregation of the dopant features. -/
theorem c2_empty_branch_behavior :
    (∀ (cfg : Config) (s : ModuleState cfg) (mode : Mode) (nD nA nC nR : ℕ)
       (inp : Inputs nD 0 nA nC nR),
       (interBranch cfg s.params s.bn.interaction_norm mode inp).1 = Fin.elim0 ∧
       (∀ (rp : RoundParams cfg.embed_dim) (st : MPState nD 0 nA cfg.embed_dim),
         (mpRound cfg rp inp.edge_index_dict st).dopant
           = fun d => siluVec cfg (fun c => rp.i2d.bias c +
               gatv2 cfg rp.a2d st.intraaction st.dopant
                 inp.edge_index_dict.intraaction_to_dopant d c)) ∧
       reprForward cfg s mode inp
         = aggregate (finalDopant cfg s mode inp) inp.batch_dict) ∧
    (∀ (cfg : Config) (s : ModuleState cfg) (mode : Mode) (nD nI nC nR : ℕ)
       (inp : Inputs nD nI 0 nC nR),
       (intraBranch cfg s.params s.bn.intraaction_norm mode inp).1 = Fin.elim0 ∧
       (∀ (rp : RoundParams cfg.embed_dim) (st : MPState nD nI 0 cfg.embed_dim),
         (mpRound cfg rp inp.edge_index_dict st).dopant
           = fun d => siluVec cfg (fun c =>
               gatv2 cfg rp.i2d st.interaction st.dopant
                 inp.edge_index_dict.interaction_to_dopant d c + rp.a2d.bias c)) ∧
       reprForward cfg s mode inp
         = aggregate (finalDopant cfg s mode inp) inp.batch_dict) := by
  constructor
  · intro cfg s mode nD nA nC nR inp
    refine ⟨?_, ?_, rfl⟩
    · funext k
      exact k.elim0
    · intro rp st
      funext d
      have he : inp.edge_index_dict.interaction_to_dopant = [] := emptySourceList _
      simp [mpRound, he, gatv2_nil]
  · intro cfg s mode nD nI nC nR inp
    refine ⟨?_, ?_, rfl⟩
    · funext k
      exact k.elim0
    · intro rp st
      funext d
      have he : inp.edge_index_dict.intraaction_to_dopant = [] := emptySourceList _
      simp [mpRound, he, gatv2_nil]

/-- C2 (counterexample to the claim as stated): over an empty interaction
relation, a convolution with bias one contributes one (its bias), not
zero, to the target dopant node. -/
theorem c2_empty_relation_counterexample :
    gatv2 cfgW (oneBiasGAT 1) Fin.elim0 xdW ([] : List (Fin 0 × Fin 1)) 0 0 = 1 ∧
    (1 : ℚ) ≠ 0 := by
  refine ⟨?_, by decide⟩
  rw [gatv2_nil]
  rfl

/-- Permuting the batch dimension leaves the per-channel batch mean
unchanged. -/
theorem bnBatchMean_perm {n C : ℕ} (σ : Equiv.Perm (Fin n)) (x : Fin n → Vec C) :
    bnBatchMean (fun k => x (σ k)) = bnBatchMean x := by
  funext c
  unfold bnBatchMean
  rw [Equiv.sum_comp σ (fun i => x i c)]

/-- Permuting the batch dimension leaves the per-channel batch variance
unchanged. -/
theorem bnBatchVar_perm {n C : ℕ} (σ : Equiv.Perm (Fin n)) (x : Fin n → Vec C) :
    bnBatchVar (fun k => x (σ k)) = bnBatchVar x := by
  funext c
  unfold bnBatchVar
  rw [bnBatchMean_perm]
  rw [Equiv.sum_comp σ (fun i => (x i c - bnBatchMean x c) ^ 2)]

/-- Batch normalization is equivariant under a permutation of the batch
dimension, in both modes. -/
theorem bnForward_fst_perm (cfg : Config) {n C : ℕ} (p : BNParams C)
    (st : BNState C) (mode : Mode) (σ : Equiv.Perm (Fin n)) (x : Fin n → Vec C) :
    (bnForward cfg p st mode (fun k => x (σ k))).1
      = fun k => (bnForward cfg p st mode x).1 (σ k) := by
  cases mode with
  | eval => rfl
  | train =>
    funext k c
    show ((fun j => x (σ j)) k c - bnBatchMean (fun j => x (σ j)) c)
        * cfg.invSqrt (bnBatchVar (fun j => x (σ j)) c + bnEps) * p.gamma c + p.beta c
      = (x (σ k) c - bnBatchMean x c)
        * cfg.invSqrt (bnBatchVar x c + bnEps) * p.gamma c + p.beta c
    rw [bnBatchMean_perm, bnBatchVar_perm]

/-- The interaction branch is equivariant under a reordering of the
interaction-node list. -/
theorem interBranch_fst_perm (cfg : Config) (p : Params cfg)
    (st : BNState cfg.interaction_dim) (mode : Mode) {nD nI nA nC nR : ℕ}
    (σ : Equiv.Perm (Fin nI)) (inp : Inputs nD nI nA nC nR) :
    (interBranch cfg p st mode (permuteInteractions σ inp)).1
      = fun k => (interBranch cfg p st mode inp).1 (σ k) := by
  funext k
  show p.interaction_film_layer.apply
      (pairEmbed cfg p.interaction_embedder_table p.interaction_embedder_lin
        (fun j => inp.interaction_types (σ j))
        (fun j => inp.interaction_type_indices (σ j)) k)
      ((bnForward cfg p.interaction_norm st mode
        (fun j => interCondVec cfg p inp (σ j))).1 k)
    = p.interaction_film_layer.apply
      (pairEmbed cfg p.interaction_embedder_table p.interaction_embedder_lin
        inp.interaction_types inp.interaction_type_indices (σ k))
      ((bnForward cfg p.interaction_norm st mode (interCondVec cfg p inp)).1 (σ k))
  rw [bnForward_fst_perm]
  rfl

/-- The edge attention weight only depends on the features at the two
endpoints, so relabeling the source endpoint along a permutation while
precomposing the source features cancels out. -/
theorem edgeExp_src_perm (cfg : Config) {E nS nT : ℕ} (gp : GATParams E)
    (xs : Fin nS → Vec E) (xd : Fin nT → Vec E) (σ : Equiv.Perm (Fin nS))
    (e : Fin nS × Fin nT) :
    edgeExp cfg gp (fun a => xs (σ a)) xd (σ.symm e.1, e.2)
      = edgeExp cfg gp xs xd e := by
  simp [edgeExp, edgeScore]

/-- Relabeling the target endpoint along a permutation while precomposing
the target features cancels out in the edge attention weight. -/
theorem edgeExp_dst_perm (cfg : Config) {E nS nT : ℕ} (gp : GATParams E)
    (xs : Fin nS → Vec E) (xd : Fin nT → Vec E) (σ : Equiv.Perm (Fin nT))
    (e : Fin nS × Fin nT) :
    edgeExp cfg gp xs (fun a => xd (σ a)) (e.1, σ.symm e.2)
      = edgeExp cfg gp xs xd e := by
  simp [edgeExp, edgeScore]

/-- A GATv2 convolution is invariant under a consistent relabeling of its
source nodes: precomposing the source features with a permutation and
relabeling the source endpoint of every edge accordingly changes
nothing. -/
theorem gatv2_src_perm (cfg : Config) {E nS nT : ℕ} (gp : GATParams E)
    (xs : Fin nS → Vec E) (xd : Fin nT → Vec E)
    (edges : List (Fin nS × Fin nT)) (σ : Equiv.Perm (Fin nS)) :
    gatv2 cfg gp (fun a => xs (σ a)) xd (edges.map (fun e => (σ.symm e.1, e.2)))
      = gatv2 cfg gp xs xd edges := by
  funext t c
  unfold gatv2 attnDenom
  rw [List.map_map, List.map_map]
  congr 1
  congr 1
  · exact congrArg List.sum (List.map_congr_left (fun e _ => by
      simp [Function.comp, edgeExp, edgeScore]))
  · exact congrArg List.sum (List.map_congr_left (fun e _ => by
      simp [Function.comp, edgeExp, edgeScore]))

/-- A GATv2 convolution is equivariant under a consistent relabeling of
its target nodes: precomposing the target features with a permutation and
relabeling the target endpoint of every edge accordingly permutes the
output. -/
theorem gatv2_dst_perm (cfg : Config) {E nS nT : ℕ} (gp : GATParams E)
    (xs : Fin nS → Vec E) (xd : Fin nT → Vec E)
    (edges : List (Fin nS × Fin nT)) (σ : Equiv.Perm (Fin nT)) (t : Fin nT) :
    gatv2 cfg gp xs (fun a => xd (σ a)) (edges.map (fun e => (e.1, σ.symm e.2))) t
      = gatv2 cfg gp xs xd edges (σ t) := by
  funext c
  unfold gatv2 attnDenom
  rw [List.map_map, List.map_map]
  congr 1
  congr 1
  · exact congrArg List.sum (List.map_congr_left (fun e _ => by
      simp [Function.comp, edgeExp, edgeScore, Equiv.symm_apply_eq]))
  · exact congrArg List.sum (List.map_congr_left (fun e _ => by
      simp [Function.comp, edgeExp, edgeScore, Equiv.symm_apply_eq]))

/-- One message passing round commutes with a permutation of the
interaction nodes applied to the state and to the interaction-incident
edge lists. -/
theorem mpRound_perm (cfg : Config) {nD nI nA : ℕ}
    (rp : RoundParams cfg.embed_dim) (ed : EdgeLists nD nI nA)
    (σ : Equiv.Perm (Fin nI)) (st : MPState nD nI nA cfg.embed_dim) :
    mpRound cfg rp (permEdges σ ed) (permMPState σ st)
      = permMPState σ (mpRound cfg rp ed st) := by
  simp only [mpRound, permMPState, permEdges, MPState.mk.injEq]
  refine ⟨?_, ?_, trivial⟩
  · funext d
    rw [gatv2_src_perm]
  · funext k
    rw [gatv2_dst_perm]

/-- The full message passing fold commutes with the permutation of the
interaction nodes. -/
theorem mpFold_perm (cfg : Config) (p : Params cfg) {nD nI nA : ℕ}
    (ed : EdgeLists nD nI nA) (σ : Equiv.Perm (Fin nI)) :
    ∀ (l : List (Fin cfg.n_message_passing)) (st : MPState nD nI nA cfg.embed_dim),
      l.foldl (fun st r => mpRound cfg (p.convs r) (permEdges σ ed) st) (permMPState σ st)
        = permMPState σ (l.foldl (fun st r => mpRound cfg (p.convs r) ed st) st) := by
  intro l
  induction l with
  | nil => intro st; rfl
  | cons r tl ih =>
    intro st
    simp only [List.foldl_cons]
    rw [mpRound_perm]
    exact ih (mpRound cfg (p.convs r) ed st)

/-- The initial node features of the reordered input are the permuted
initial node features of the original input: the dopant and intraaction
branches are untouched and the interaction branch is equivariant. -/
theorem initialMPState_perm (cfg : Config) (s : ModuleState cfg) (mode : Mode)
    {nD nI nA nC nR : ℕ} (σ : Equiv.Perm (Fin nI)) (inp : Inputs nD nI nA nC nR) :
    initialMPState cfg s mode (permuteInteractions σ inp)
      = permMPState σ (initialMPState cfg s mode inp) := by
  have h := interBranch_fst_perm cfg s.params s.bn.interaction_norm mode σ inp
  unfold initialMPState permMPState
  rw [h]
  rfl

/-- C7: reordering the interaction-node list by any permutation, applied
consistently to interaction_type_indices, interaction_types,
interaction_dopant_indices and the two interaction-incident edge lists,
leaves the pooled dopant aggregation output of forward unchanged (exactly,
in exact arithmetic), in both training and evaluation mode. -/
theorem c7_interaction_permutation_invariance :
    ∀ (cfg : Config) (s : ModuleState cfg) (mode : Mode) (nD nI nA nC nR : ℕ)
      (σ : Equiv.Perm (Fin nI)) (inp : Inputs nD nI nA nC nR),
      reprForward cfg s mode (permuteInteractions σ inp)
        = reprForward cfg s mode inp := by
  intro cfg s mode nD nI nA nC nR σ inp
  have hfin : finalDopant cfg s mode (permuteInteractions σ inp)
      = finalDopant cfg s mode inp := by
    unfold finalDopant
    rw [show (permuteInteractions σ inp).edge_index_dict
          = permEdges σ inp.edge_index_dict from rfl,
        initialMPState_perm]
    unfold mpAll
    rw [mpFold_perm]
    rfl
  show aggregate (finalDopant cfg s mode (permuteInteractions σ inp))
        (permuteInteractions σ inp).batch_dict
      = aggregate (finalDopant cfg s mode inp) inp.batch_dict
  rw [hfin]
  rfl
